import Mathlib

/-!
Shallow embedding of `crates/core/src/pattern_compiler/snippet_compiler.rs`
(the snippet-compilation stage of the GritQL structural search/replace
engine) and verification of the specification's claims about it.

Texts are modelled as `List Char` (Rust byte strings restricted to the
character level; all index arithmetic in the claims is preserved).
Rust `Result` returns are modelled with `Except`; Rust panics (out of
bounds string slicing) are modelled with an explicit `.panic` outcome that
is distinct from an ordinary `Err`, because a Rust panic is not caught by
`Result` combinators such as `map_or`.
External collaborators that are not part of the given source (the
metavariable scanner, the language profile's regexes and parser, the
variable registry, the recursive structural compiler) are modelled from
the spec as explicit parameters, per its §6 interface contracts.
-/

namespace SnippetComp

/-- Convert a string literal to the `List Char` text representation. -/
def toL (s : String) : List Char := s.toList

/-- The backslash character. -/
def bsChar : Char := '\\'

/-- The backtick character (code point 96). -/
def btChar : Char := Char.ofNat 96

/-- The double-quote character (code point 34). -/
def dqChar : Char := Char.ofNat 34

/-- Half-open byte range `[start, stop)` (grit_util's `ByteRange`; the
source field `end` is a Lean keyword, rendered here as `stop`). -/
structure ByteRange where
  start : Nat
  stop : Nat
deriving DecidableEq, Repr

/-- `slice s a b` models the Rust string slice `&s[a..b]` (on the char
level) when `a ≤ b ≤ s.length`. -/
def slice (s : List Char) (a b : Nat) : List Char :=
  (s.drop a).take (b - a)

/-- Rust `str::trim`: strip leading and trailing whitespace. -/
def trim (s : List Char) : List Char :=
  ((s.dropWhile Char.isWhitespace).reverse.dropWhile Char.isWhitespace).reverse

/-- One Rust `String::replace` pass for a two-character pattern
`[bsChar, p]` replaced by the single character `r`: all non-overlapping
occurrences are rewritten in one left-to-right scan. -/
def replacePair (p r : Char) : List Char → List Char
  | [] => []
  | [c] => [c]
  | a :: b :: t =>
    if a = bsChar ∧ b = p then r :: replacePair p r t
    else a :: replacePair p r (b :: t)

/-- The escape processing of `dynamic_snippet_from_source` (lines 86-92 of
the source), applying the six whole-text replacements in the source's
order: `\n`, `\$`, `\^`, backslash-backtick, `\"`, `\\`. -/
def unescape (s : List Char) : List Char :=
  replacePair bsChar bsChar
    (replacePair dqChar dqChar
      (replacePair btChar btChar
        (replacePair '^' '^'
          (replacePair '$' '$'
            (replacePair 'n' '\n' s)))))

/-- The same six whole-text replacements in the order listed by the spec
(§4.3 step 1): `\n`, backslash-backtick, `\$`, `\^`, `\"`, `\\`.  This is
the refinement definition written from the spec's words, to be compared
with `unescape` (written from the source). -/
def unescapeSpecOrder (s : List Char) : List Char :=
  replacePair bsChar bsChar
    (replacePair dqChar dqChar
      (replacePair '^' '^'
        (replacePair '$' '$'
          (replacePair btChar btChar
            (replacePair 'n' '\n' s)))))

/-- One part of a dynamic snippet: a literal string or a registered
variable (grit_pattern_matcher's `DynamicSnippetPart::String` /
`DynamicSnippetPart::Variable`; the variable is identified by its name). -/
inductive DynamicSnippetPart where
  | str (s : List Char)
  | var (name : List Char)
deriving DecidableEq, Repr

/-- `DynamicSnippet`: an ordered sequence of parts. -/
structure DynamicSnippet where
  parts : List DynamicSnippetPart
deriving DecidableEq, Repr

/-- `DynamicPattern` (only the `Snippet` variant is produced by this
core). -/
inductive DynamicPattern where
  | snippet (s : DynamicSnippet)
deriving DecidableEq, Repr

/-- Compilation errors surfaced as `Result::Err` by this core. -/
inductive CompileError where
  | placement
  | variableBinding (name : List Char)
  | malformedLiteral
  | unknownLanguage (name : List Char)
  | missingChild
deriving DecidableEq, Repr

/-- Outcome channel of an embedded computation: an ordinary `Result::Err`
(`err`) or a Rust panic (`panic`), which no `Result` combinator catches. -/
inductive RunFailure where
  | panic
  | err (e : CompileError)
deriving DecidableEq, Repr

/-- A candidate AST root node produced by parsing the snippet text under
one syntactic context, identified by its grammar kind id. -/
structure SnippetNode where
  kindId : Nat
deriving DecidableEq, Repr

/-- Modelled from the spec: the target-language profile interface (§6) —
the bracketed-metavariable matcher, the exact-metavariable matcher, the
metavariable scanner `find_metavariables`, and
`parse_under_all_contexts` (already flattened to the candidate node list
that `nodes_from_indices` produces). -/
structure LangProfile where
  bracketRegex : List Char → Bool
  exactVarRegex : List Char → Bool
  splitSnippet : List Char → List (ByteRange × List Char)
  parseSnippetContexts : List Char → List SnippetNode

/-- Modelled from the spec: the per-rule `CompilationContext` (§3) — the
active language profile plus the variable registry.  `failNames` models
the registry's `VariableBindingError` cases (names it rejects; exact
semantics are owned by the registry, outside this core); `log` records
every successful registration `(name, absolute range)` in order. -/
structure SnippetCompilationContext where
  lang : LangProfile
  failNames : List (List Char)
  log : List (List Char × ByteRange)

/-- Modelled from the spec: `register_snippet_variable(name, range)` (§6)
— registers the name and returns a part usable inside a template. -/
def registerSnippetVariable (ctx : SnippetCompilationContext) (name : List Char)
    (range : ByteRange) :
    Except RunFailure DynamicSnippetPart × SnippetCompilationContext :=
  if name ∈ ctx.failNames then (.error (.err (.variableBinding name)), ctx)
  else (.ok (.var name), { ctx with log := ctx.log ++ [(name, range)] })

/-- Modelled from the spec: `register_variable(name, range)` (§6) —
registers the name and returns a bare variable reference (its name). -/
def registerVariable (ctx : SnippetCompilationContext) (name : List Char)
    (range : ByteRange) :
    Except RunFailure (List Char) × SnippetCompilationContext :=
  if name ∈ ctx.failNames then (.error (.err (.variableBinding name)), ctx)
  else (.ok name, { ctx with log := ctx.log ++ [(name, range)] })

/-- `Pattern<MarzanoQueryContext>`, restricted to the variants this core
produces: `Underscore`, `Variable`, `Dynamic`, and `CodeSnippet`
(`MarzanoCodeSnippet::new(patterns, dynamic_snippet, source)`). -/
inductive MPattern where
  | underscore
  | var (name : List Char)
  | dynamic (d : DynamicPattern)
  | codeSnippet (patterns : List (Nat × MPattern)) (template : Option DynamicPattern)
      (source : List Char)

/-- Modelled from the spec: the recursive structural compiler interface
`compile_node(node, absolute_range, is_rhs, context)` (§6,
`PatternCompiler::from_snippet_node` at the call site). -/
def CompileNodeFn : Type :=
  SnippetNode → ByteRange → Bool → SnippetCompilationContext →
    Except RunFailure MPattern × SnippetCompilationContext

/-- The loop of `dynamic_snippet_from_source` (source lines 110-129): walk
the occurrence list (already reversed by the caller), pushing the literal
slice `source[last..byte_range.start]` and then the registered variable
part, tracking `last = byte_range.end`.  An out-of-bounds slice is a Rust
panic, modelled as `.panic`. -/
def dsfsLoop (source : List Char) (sourceRange : ByteRange) :
    List (ByteRange × List Char) → Nat → List DynamicSnippetPart →
    SnippetCompilationContext →
    Except RunFailure (List DynamicSnippetPart × Nat) × SnippetCompilationContext
  | [], last, parts, ctx => (.ok (parts, last), ctx)
  | (byteRange, v) :: rest, last, parts, ctx =>
    if last ≤ byteRange.start ∧ byteRange.start ≤ source.length then
      match registerSnippetVariable ctx v
          ⟨sourceRange.start + byteRange.start,
           sourceRange.start + byteRange.start + v.length⟩ with
      | (.ok part, ctx') =>
        dsfsLoop source sourceRange rest byteRange.stop
          (parts ++ [.str (slice source last byteRange.start), part]) ctx'
      | (.error e, ctx') => (.error e, ctx')
    else (.error .panic, ctx)

/-- `dynamic_snippet_from_source` (source lines 76-141): unescape the raw
text, scan for metavariables, iterate them in reverse order building the
parts list, then append the trailing literal `source[last..]`. -/
def dynamic_snippet_from_source (rawSource : List Char) (sourceRange : ByteRange)
    (ctx : SnippetCompilationContext) :
    Except RunFailure DynamicSnippet × SnippetCompilationContext :=
  let source := unescape rawSource
  let metavariables := ctx.lang.splitSnippet source
  match dsfsLoop source sourceRange metavariables.reverse 0 [] ctx with
  | (.ok (parts, last), ctx') =>
    if last ≤ source.length then
      (.ok ⟨parts ++ [.str (source.drop last)]⟩, ctx')
    else (.error .panic, ctx')
  | (.error e, ctx') => (.error e, ctx')

/-- The structural compilation of every candidate node (source lines
217-226): `snippet_nodes.into_iter().map(...).collect::<Result<_>>()`,
stopping at the first error, threading the mutable context. -/
def compileAll (cn : CompileNodeFn) :
    List SnippetNode → ByteRange → SnippetCompilationContext → Bool →
    Except RunFailure (List (Nat × MPattern)) × SnippetCompilationContext
  | [], _, ctx, _ => (.ok [], ctx)
  | n :: ns, range, ctx, rhs =>
    match cn n range rhs ctx with
    | (.ok p, ctx') =>
      match compileAll cn ns range ctx' rhs with
      | (.ok ps, ctx'') => (.ok ((n.kindId, p) :: ps), ctx'')
      | (.error e, ctx'') => (.error e, ctx'')
    | (.error e, ctx') => (.error e, ctx')

/-- `parse_snippet_content` (source lines 143-243): the ordered decision
procedure — bracketed-metavariable check, exact-single-variable check,
structural attempt with dynamic fallback.  In the final branch the Rust
`map_or(None, ...)` catches a `Result::Err` of the dynamic build (the
template becomes `None`) but a panic still propagates. -/
def parse_snippet_content (cn : CompileNodeFn) (source : List Char)
    (range : ByteRange) (ctx : SnippetCompilationContext) (is_rhs : Bool) :
    Except RunFailure MPattern × SnippetCompilationContext :=
  if ctx.lang.bracketRegex source then
    if is_rhs then
      match dynamic_snippet_from_source source range ctx with
      | (.ok s, ctx') => (.ok (.dynamic (.snippet s)), ctx')
      | (.error e, ctx') => (.error e, ctx')
    else (.error (.err .placement), ctx)
  else if ctx.lang.exactVarRegex (trim source) then
    if trim source = toL "$_" then (.ok .underscore, ctx)
    else if trim source = toL "^_" then (.ok .underscore, ctx)
    else
      match registerVariable ctx (trim source) range with
      | (.ok v, ctx') => (.ok (.var v), ctx')
      | (.error e, ctx') => (.error e, ctx')
  else
    let snippetNodes := ctx.lang.parseSnippetContexts source
    if snippetNodes = [] then
      match dynamic_snippet_from_source source range ctx with
      | (.ok s, ctx') => (.ok (.dynamic (.snippet s)), ctx')
      | (.error e, ctx') => (.error e, ctx')
    else
      match compileAll cn snippetNodes range ctx is_rhs with
      | (.ok ps, ctx₁) =>
        match dynamic_snippet_from_source source range ctx₁ with
        | (.ok s, ctx₂) => (.ok (.codeSnippet ps (some (.snippet s)) source), ctx₂)
        | (.error (.err _), ctx₂) => (.ok (.codeSnippet ps none source), ctx₂)
        | (.error .panic, ctx₂) => (.error .panic, ctx₂)
      | (.error e, ctx₁) => (.error e, ctx₁)

/-- Rust `str::strip_suffix('"')`: drop a final double quote, or `none`. -/
def stripLastQuote : List Char → Option (List Char)
  | [] => none
  | [c] => if c = dqChar then some [] else none
  | c :: d :: rest => (stripLastQuote (d :: rest)).map (fun t => c :: t)

/-- The quote stripping of `LanguageSpecificSnippetCompiler` (source lines
66-70): `strip_prefix('"')` then `strip_suffix('"')`. -/
def dequote (s : List Char) : Option (List Char) :=
  match s with
  | [] => none
  | c :: rest => if c = dqChar then stripLastQuote rest else none

/-- The `languageSpecificSnippet` AST node handed to the Unwrapper: its
`language` child's text, its `snippet` child's raw text, and its own byte
range (a child is `none` when absent). -/
structure LangSnippetNode where
  languageChild : Option (List Char)
  snippetChild : Option (List Char)
  range : ByteRange

/-- `LanguageSpecificSnippetCompiler::from_node_with_rhs` (source lines
49-73).  `validLang` models `TargetLanguage::from_string` (the external
registry, spec §6); `range.adjust_columns(1, -1)` shrinks the node's own
range by one column on each side. -/
def from_node_with_rhs (cn : CompileNodeFn) (validLang : List Char → Bool)
    (node : LangSnippetNode) (ctx : SnippetCompilationContext) (is_rhs : Bool) :
    Except RunFailure MPattern × SnippetCompilationContext :=
  match node.languageChild with
  | none => (.error (.err .missingChild), ctx)
  | some langText =>
    let langName := trim langText
    if validLang langName then
      match node.snippetChild with
      | none => (.error (.err .missingChild), ctx)
      | some source =>
        let range : ByteRange := ⟨node.range.start + 1, node.range.stop - 1⟩
        match dequote source with
        | some content => parse_snippet_content cn content range ctx is_rhs
        | none => (.error (.err .malformedLiteral), ctx)
    else (.error (.err (.unknownLanguage langName)), ctx)

/-! ### Lemmas about `replacePair` (escape processing) -/

theorem replacePair_cons_ne (p r a : Char) (l : List Char) (ha : a ≠ bsChar) :
    replacePair p r (a :: l) = a :: replacePair p r l := by
  cases l with
  | nil => rfl
  | cons b t => simp [replacePair, ha]

theorem replacePair_bs_hit (p r : Char) (t : List Char) :
    replacePair p r (bsChar :: p :: t) = r :: replacePair p r t := by
  simp [replacePair]

theorem replacePair_bs_miss (p r b : Char) (t : List Char) (hb : b ≠ p) :
    replacePair p r (bsChar :: b :: t) = bsChar :: replacePair p r (b :: t) := by
  simp [replacePair, hb]

/-- The result of one replacement pass on a nonempty text is nonempty and
its head is either the original head or the replacement character. -/
theorem replacePair_cons_shape (p r x : Char) (l : List Char) :
    ∃ y t, replacePair p r (x :: l) = y :: t ∧ (y = x ∨ y = r) := by
  cases l with
  | nil => exact ⟨x, [], rfl, Or.inl rfl⟩
  | cons d t' =>
    by_cases h : x = bsChar ∧ d = p
    · obtain ⟨h1, h2⟩ := h
      refine ⟨r, replacePair p r t', ?_, Or.inr rfl⟩
      rw [h1, h2, replacePair_bs_hit]
    · exact ⟨x, replacePair p r (d :: t'), by simp [replacePair, h], Or.inl rfl⟩

/-- Two replacement passes whose patterns are backslash-plus-`a` and
backslash-plus-`b` (with `a`, `b` distinct and neither a backslash) and
which replace the pair with the escaped character itself commute. -/
theorem replacePair_comm_aux (a b : Char) (ha : a ≠ bsChar) (hb : b ≠ bsChar)
    (hab : a ≠ b) :
    ∀ n s, List.length s ≤ n →
      replacePair a a (replacePair b b s) = replacePair b b (replacePair a a s) := by
  intro n
  induction n with
  | zero =>
    intro s hs
    rcases s with _ | ⟨c, t⟩
    · rfl
    · simp only [List.length_cons] at hs; omega
  | succ n ih =>
    intro s hs
    rcases s with _ | ⟨c₁, _ | ⟨c₂, t⟩⟩
    · rfl
    · rfl
    · have h2 : (c₂ :: t).length ≤ n := by
        simp only [List.length_cons] at hs ⊢; omega
      have ht : t.length ≤ n := by
        simp only [List.length_cons] at hs; omega
      by_cases h₁ : c₁ = bsChar
      · subst h₁
        by_cases h₂a : c₂ = a
        · subst h₂a
          rw [replacePair_bs_miss b b c₂ t hab,
              replacePair_cons_ne b b c₂ t ha,
              replacePair_bs_hit c₂ c₂ (replacePair b b t),
              ih t ht,
              replacePair_bs_hit c₂ c₂ t,
              replacePair_cons_ne b b c₂ (replacePair c₂ c₂ t) ha]
        · by_cases h₂b : c₂ = b
          · subst h₂b
            rw [replacePair_bs_hit c₂ c₂ t,
                replacePair_cons_ne a a c₂ (replacePair c₂ c₂ t) hb,
                ih t ht,
                replacePair_bs_miss a a c₂ t (Ne.symm hab),
                replacePair_cons_ne a a c₂ t hb,
                replacePair_bs_hit c₂ c₂ (replacePair a a t)]
          · obtain ⟨y, ty, hy, hyor⟩ := replacePair_cons_shape b b c₂ t
            obtain ⟨z, tz, hz, hzor⟩ := replacePair_cons_shape a a c₂ t
            have hya : y ≠ a := by
              rcases hyor with h | h
              · rw [h]; exact h₂a
              · rw [h]; exact Ne.symm hab
            have hzb : z ≠ b := by
              rcases hzor with h | h
              · rw [h]; exact h₂b
              · rw [h]; exact hab
            rw [replacePair_bs_miss b b c₂ t h₂b,
                replacePair_bs_miss a a c₂ t h₂a,
                hy, replacePair_bs_miss a a y ty hya, ← hy,
                hz, replacePair_bs_miss b b z tz hzb, ← hz,
                ih (c₂ :: t) h2]
      · rw [replacePair_cons_ne b b c₁ (c₂ :: t) h₁,
            replacePair_cons_ne a a c₁ (c₂ :: t) h₁,
            replacePair_cons_ne a a c₁ (replacePair b b (c₂ :: t)) h₁,
            replacePair_cons_ne b b c₁ (replacePair a a (c₂ :: t)) h₁,
            ih (c₂ :: t) h2]

theorem replacePair_comm (a b : Char) (ha : a ≠ bsChar) (hb : b ≠ bsChar)
    (hab : a ≠ b) (s : List Char) :
    replacePair a a (replacePair b b s) = replacePair b b (replacePair a a s) :=
  replacePair_comm_aux a b ha hb hab s.length s le_rfl

/-- C4: the unescaping step of the Dynamic Snippet Builder applies exactly
the six literal substitutions backslash-n to newline, backslash-backtick
to backtick, backslash-dollar to dollar, backslash-caret to caret,
backslash-quote to quote, double-backslash to backslash, as sequential
whole-text rewrites, and for every input string the result equals the
result of applying the six whole-text replacements in the order listed by
the spec. -/
theorem unescape_applies_spec_order (s : List Char) :
    unescape s = unescapeSpecOrder s := by
  unfold unescape unescapeSpecOrder
  apply congrArg (replacePair bsChar bsChar)
  apply congrArg (replacePair dqChar dqChar)
  rw [replacePair_comm btChar '^' (by decide) (by decide) (by decide),
      replacePair_comm btChar '$' (by decide) (by decide) (by decide)]

/-! ### Concrete language profiles and contexts used to evaluate the code
at specific inputs -/

/-- A concrete scanner instantiation used to evaluate the builder at the
claims' inputs: on each listed text it reports the metavariable
occurrences at their actual positions, exactly as the spec's scanner
contract (§6: non-overlapping, sorted by start offset) prescribes. -/
def scanLang : LangProfile where
  bracketRegex := fun _ => false
  exactVarRegex := fun _ => false
  splitSnippet := fun s =>
    if s = toL "$a + $b" then [(⟨0, 2⟩, toL "$a"), (⟨5, 7⟩, toL "$b")]
    else if s = toL "$x * $y" then [(⟨0, 2⟩, toL "$x"), (⟨5, 7⟩, toL "$y")]
    else if s = toL "$p$q" then [(⟨0, 2⟩, toL "$p"), (⟨2, 4⟩, toL "$q")]
    else []
  parseSnippetContexts := fun _ => []

/-- A fresh compilation context over `scanLang` with an empty registry. -/
def scanCtx : SnippetCompilationContext where
  lang := scanLang
  failNames := []
  log := []

/-- C1: at the input `"$a + $b"` — a metavariable-bearing text with two
occurrences — `dynamic_snippet_from_source` aborts with a panic (the
slice `source[last..byte_range.start]` is taken with `last = 7` and
`byte_range.start = 0`) and produces no snippet at all, so no
concatenation of parts reproduces the unescaped text; the claimed
reconstruction law fails on the code. -/
theorem dsfs_two_occurrences_no_snippet :
    (dynamic_snippet_from_source (toL "$a + $b") ⟨0, 7⟩ scanCtx).1 =
      .error .panic := by rfl

/-- C2: at the input `"$x * $y"` with its two scanner-reported
occurrences, the second iteration of the builder's loop performs the
slice `source[last..byte_range.start]` with `last = 7 >
byte_range.start = 0`, i.e. the code panics and is not total. -/
theorem dsfs_two_occurrences_slice_panics :
    (dynamic_snippet_from_source (toL "$x * $y") ⟨0, 7⟩ scanCtx).1 =
      .error .panic := by rfl

/-- C3: at the input `"$p$q"` with two adjacent occurrences, the builder
emits no parts list at all (it panics on the second, earlier occurrence),
so no left-to-right ordered parts list is produced for this input. -/
theorem dsfs_two_occurrences_emits_no_parts :
    (dynamic_snippet_from_source (toL "$p$q") ⟨0, 4⟩ scanCtx).1 =
      .error .panic := by rfl

/-! ### The registration log of the builder (claim C10) -/

/-- Every entry the builder's loop adds to the registration log comes from
an occurrence `(byte_range, name)` of its occurrence list and carries the
absolute range `[sourceRange.start + byte_range.start,
sourceRange.start + byte_range.start + name.length)`. -/
theorem dsfsLoop_log_mem (source : List Char) (sr : ByteRange) :
    ∀ (mvs : List (ByteRange × List Char)) (last : Nat)
      (parts : List DynamicSnippetPart) (ctx : SnippetCompilationContext)
      (e : List Char × ByteRange),
      e ∈ (dsfsLoop source sr mvs last parts ctx).2.log →
      e ∈ ctx.log ∨ ∃ br v, (br, v) ∈ mvs ∧
        e = (v, ⟨sr.start + br.start, sr.start + br.start + v.length⟩) := by
  intro mvs
  induction mvs with
  | nil => intro last parts ctx e he; exact Or.inl he
  | cons hd rest ih =>
    intro last parts ctx e he
    obtain ⟨br, v⟩ := hd
    simp only [dsfsLoop] at he
    by_cases hcond : last ≤ br.start ∧ br.start ≤ source.length
    · rw [if_pos hcond] at he
      by_cases hfail : v ∈ ctx.failNames
      · simp only [registerSnippetVariable, if_pos hfail] at he
        exact Or.inl he
      · simp only [registerSnippetVariable, if_neg hfail] at he
        rcases ih br.stop _ _ e he with h | ⟨br', v', hmem, heq⟩
        · simp only [List.mem_append, List.mem_singleton] at h
          rcases h with h | h
          · exact Or.inl h
          · exact Or.inr ⟨br, v, List.mem_cons_self _ _, h⟩
        · exact Or.inr ⟨br', v', List.mem_cons_of_mem _ hmem, heq⟩
    · rw [if_neg hcond] at he
      exact Or.inl he

/-- The context returned by `dynamic_snippet_from_source` is exactly the
context returned by its loop (the final trailing-slice step registers
nothing). -/
theorem dsfs_ctx_eq_loop_ctx (raw : List Char) (sr : ByteRange)
    (ctx : SnippetCompilationContext) :
    (dynamic_snippet_from_source raw sr ctx).2 =
      (dsfsLoop (unescape raw) sr
        (ctx.lang.splitSnippet (unescape raw)).reverse 0 [] ctx).2 := by
  simp only [dynamic_snippet_from_source]
  rcases h : dsfsLoop (unescape raw) sr
      (ctx.lang.splitSnippet (unescape raw)).reverse 0 [] ctx with ⟨res, ctx'⟩
  cases res with
  | ok pl =>
    obtain ⟨parts, last⟩ := pl
    by_cases hl : last ≤ (unescape raw).length
    · simp [hl]
    · simp [hl]
  | error err => simp

/-- C10: every variable registration performed by
`dynamic_snippet_from_source` for a scanner-reported occurrence
`(byte_range, name)` uses the absolute range starting at
`source_range.start + byte_range.start` and ending at
`source_range.start + byte_range.start + name.length` — i.e. the
registered range's length is the name's length, not
`byte_range.end - byte_range.start`. -/
theorem dsfs_registered_range_uses_name_length
    (raw : List Char) (sr : ByteRange) (ctx : SnippetCompilationContext)
    (hlog : ctx.log = [])
    (e : List Char × ByteRange)
    (he : e ∈ (dynamic_snippet_from_source raw sr ctx).2.log) :
    ∃ br v, (br, v) ∈ ctx.lang.splitSnippet (unescape raw) ∧
      e = (v, ⟨sr.start + br.start, sr.start + br.start + v.length⟩) := by
  rw [dsfs_ctx_eq_loop_ctx raw sr ctx] at he
  rcases dsfsLoop_log_mem (unescape raw) sr _ 0 [] ctx e he with h | ⟨br, v, hmem, heq⟩
  · rw [hlog] at h
    exact absurd h (List.not_mem_nil e)
  · exact ⟨br, v, List.mem_reverse.mp hmem, heq⟩

/-- A language profile whose scanner reports, on the text `"$foo!!"`, one
occurrence whose range (6 chars) is longer than its name (4 chars). -/
def witLang10 : LangProfile where
  bracketRegex := fun _ => false
  exactVarRegex := fun _ => false
  splitSnippet := fun s => if s = toL "$foo!!" then [(⟨0, 6⟩, toL "$foo")] else []
  parseSnippetContexts := fun _ => []

/-- A fresh compilation context over `witLang10`. -/
def ctx10 : SnippetCompilationContext := ⟨witLang10, [], []⟩

/-- Witness for C10: concrete instance where the registered range
`[100, 104)` has the name's length 4, not the occurrence's length 6. -/
theorem dsfs_registered_range_uses_name_length_witness :
    ctx10.log = [] ∧
    ((toL "$foo", (⟨100, 104⟩ : ByteRange)) ∈
      (dynamic_snippet_from_source (toL "$foo!!") ⟨100, 106⟩ ctx10).2.log) ∧
    ∃ br v, (br, v) ∈ ctx10.lang.splitSnippet (unescape (toL "$foo!!")) ∧
      (toL "$foo", (⟨100, 104⟩ : ByteRange)) =
        (v, ⟨(100 : Nat) + br.start, (100 : Nat) + br.start + v.length⟩) :=
  ⟨rfl, by decide,
    dsfs_registered_range_uses_name_length (toL "$foo!!") ⟨100, 106⟩ ctx10 rfl
      (toL "$foo", ⟨100, 104⟩) (by decide)⟩

/-! ### The builder's result component depends on the context only
through its registry (used for the never-attempts-structural-parsing part
of claim C5) -/

theorem dsfsLoop_fst_congr (source : List Char) (sr : ByteRange) :
    ∀ (mvs : List (ByteRange × List Char)) (last : Nat)
      (parts : List DynamicSnippetPart)
      (ctx₁ ctx₂ : SnippetCompilationContext),
      ctx₁.failNames = ctx₂.failNames →
      (dsfsLoop source sr mvs last parts ctx₁).1 =
      (dsfsLoop source sr mvs last parts ctx₂).1 := by
  intro mvs
  induction mvs with
  | nil => intro last parts ctx₁ ctx₂ hf; rfl
  | cons hd rest ih =>
    intro last parts ctx₁ ctx₂ hf
    obtain ⟨br, v⟩ := hd
    simp only [dsfsLoop]
    by_cases hcond : last ≤ br.start ∧ br.start ≤ source.length
    · rw [if_pos hcond, if_pos hcond]
      by_cases hfail : v ∈ ctx₁.failNames
      · have hfail₂ : v ∈ ctx₂.failNames := hf ▸ hfail
        simp only [registerSnippetVariable, if_pos hfail, if_pos hfail₂]
      · have hfail₂ : v ∉ ctx₂.failNames := fun h => hfail (hf.symm ▸ h)
        simp only [registerSnippetVariable, if_neg hfail, if_neg hfail₂]
        exact ih _ _ _ _ hf
    · rw [if_neg hcond, if_neg hcond]

theorem dsfs_fst_congr (raw : List Char) (sr : ByteRange)
    (ctx₁ ctx₂ : SnippetCompilationContext)
    (hf : ctx₁.failNames = ctx₂.failNames)
    (hs : ctx₁.lang.splitSnippet = ctx₂.lang.splitSnippet) :
    (dynamic_snippet_from_source raw sr ctx₁).1 =
    (dynamic_snippet_from_source raw sr ctx₂).1 := by
  simp only [dynamic_snippet_from_source, hs]
  have h := dsfsLoop_fst_congr (unescape raw) sr
      ((ctx₂.lang.splitSnippet (unescape raw)).reverse) 0 [] ctx₁ ctx₂ hf
  rcases e₁ : dsfsLoop (unescape raw) sr
      ((ctx₂.lang.splitSnippet (unescape raw)).reverse) 0 [] ctx₁ with ⟨res₁, c₁⟩
  rcases e₂ : dsfsLoop (unescape raw) sr
      ((ctx₂.lang.splitSnippet (unescape raw)).reverse) 0 [] ctx₂ with ⟨res₂, c₂⟩
  rw [e₁, e₂] at h
  have h' : res₁ = res₂ := h
  subst h'
  cases res₁ with
  | ok pl =>
    obtain ⟨parts, last⟩ := pl
    by_cases hl : last ≤ (unescape raw).length <;> simp [hl]
  | error err => rfl

/-! ### Claim C5: bracketed metavariables -/

theorem parse_bracketed_lhs_eq (cn : CompileNodeFn) (source : List Char)
    (range : ByteRange) (ctx : SnippetCompilationContext)
    (hbr : ctx.lang.bracketRegex source = true) :
    parse_snippet_content cn source range ctx false =
      (.error (.err .placement), ctx) := by
  simp [parse_snippet_content, hbr]

theorem parse_bracketed_rhs_eq (cn : CompileNodeFn) (source : List Char)
    (range : ByteRange) (ctx : SnippetCompilationContext)
    (hbr : ctx.lang.bracketRegex source = true) :
    parse_snippet_content cn source range ctx true =
      (match dynamic_snippet_from_source source range ctx with
       | (.ok s, ctx') => (.ok (.dynamic (.snippet s)), ctx')
       | (.error e, ctx') => (.error e, ctx')) := by
  simp [parse_snippet_content, hbr]

/-- C5: when the text matches the bracketed-metavariable form, compiling
on the left-hand side always fails with the placement error (no pattern is
returned), compiling on the right-hand side returns the `Dynamic` wrapping
of the Dynamic Snippet Builder's outcome, and structural parsing is never
attempted: the produced result does not depend on the structural node
compiler nor on the language's snippet parser. -/
theorem parse_bracketed_metavariables (cn : CompileNodeFn) (source : List Char)
    (range : ByteRange) (ctx : SnippetCompilationContext)
    (hbr : ctx.lang.bracketRegex source = true) :
    (parse_snippet_content cn source range ctx false =
        (.error (.err .placement), ctx))
    ∧ (parse_snippet_content cn source range ctx true =
        (match dynamic_snippet_from_source source range ctx with
         | (.ok s, ctx') => (.ok (.dynamic (.snippet s)), ctx')
         | (.error e, ctx') => (.error e, ctx')))
    ∧ (∀ (is_rhs : Bool) (cn' : CompileNodeFn)
        (p : List Char → List SnippetNode),
        (parse_snippet_content cn' source range
          { ctx with lang := { ctx.lang with parseSnippetContexts := p } } is_rhs).1 =
        (parse_snippet_content cn source range ctx is_rhs).1) := by
  refine ⟨parse_bracketed_lhs_eq cn source range ctx hbr,
          parse_bracketed_rhs_eq cn source range ctx hbr, ?_⟩
  intro is_rhs cn' p
  have hbr' : ({ ctx with
      lang := { ctx.lang with parseSnippetContexts := p } } :
        SnippetCompilationContext).lang.bracketRegex source = true := hbr
  cases is_rhs
  · rw [parse_bracketed_lhs_eq cn' source range _ hbr',
        parse_bracketed_lhs_eq cn source range ctx hbr]
  · rw [parse_bracketed_rhs_eq cn' source range _ hbr',
        parse_bracketed_rhs_eq cn source range ctx hbr]
    have h := dsfs_fst_congr source range
      { ctx with lang := { ctx.lang with parseSnippetContexts := p } } ctx rfl rfl
    rcases e₁ : dynamic_snippet_from_source source range
      { ctx with lang := { ctx.lang with parseSnippetContexts := p } } with ⟨r₁, c₁⟩
    rcases e₂ : dynamic_snippet_from_source source range ctx with ⟨r₂, c₂⟩
    rw [e₁, e₂] at h
    have h' : r₁ = r₂ := h
    subst h'
    cases r₁ <;> rfl

/-- A language profile whose bracketed-metavariable matcher accepts
every text. -/
def brLang : LangProfile where
  bracketRegex := fun _ => true
  exactVarRegex := fun _ => false
  splitSnippet := fun _ => []
  parseSnippetContexts := fun _ => []

/-- A fresh compilation context over `brLang`. -/
def brCtx : SnippetCompilationContext := ⟨brLang, [], []⟩

/-- A trivial structural node compiler used to instantiate witnesses. -/
def cnDummy : CompileNodeFn := fun _ _ _ c => (.ok .underscore, c)

/-- Witness for C5: a concrete bracketed text on the left-hand side yields
the placement error. -/
theorem parse_bracketed_metavariables_witness :
    brCtx.lang.bracketRegex (toL "out") = true ∧
    parse_snippet_content cnDummy (toL "out") ⟨0, 3⟩ brCtx false =
      (.error (.err .placement), brCtx) :=
  ⟨rfl, (parse_bracketed_metavariables cnDummy (toL "out") ⟨0, 3⟩ brCtx rfl).1⟩

/-! ### Claim C6: exact single metavariables and wildcards -/

/-- C6: when the text is not a bracketed template and its trimmed form
matches the exact-metavariable form, the two wildcard spellings yield the
`Underscore` pattern for both sides of a rule, and any other
single-metavariable text is registered in the context and returned as a
`Variable` pattern. -/
theorem parse_exact_variable (cn : CompileNodeFn) (source : List Char)
    (range : ByteRange) (ctx : SnippetCompilationContext)
    (hbr : ctx.lang.bracketRegex source = false)
    (hex : ctx.lang.exactVarRegex (trim source) = true) :
    ((trim source = toL "$_" ∨ trim source = toL "^_") →
      ∀ is_rhs, parse_snippet_content cn source range ctx is_rhs =
        (.ok .underscore, ctx))
    ∧ (trim source ≠ toL "$_" → trim source ≠ toL "^_" →
      trim source ∉ ctx.failNames →
      ∀ is_rhs, parse_snippet_content cn source range ctx is_rhs =
        (.ok (.var (trim source)),
         { ctx with log := ctx.log ++ [(trim source, range)] })) := by
  constructor
  · rintro (h | h) is_rhs
    · have hex' := hex
      rw [h] at hex'
      simp [parse_snippet_content, hbr, hex', h]
    · have hex' := hex
      rw [h] at hex'
      simp [parse_snippet_content, hbr, hex', h,
        show toL "^_" ≠ toL "$_" from by decide]
  · intro h1 h2 h3 is_rhs
    simp [parse_snippet_content, hbr, hex, h1, h2, registerVariable, h3]

/-- A language profile whose exact-metavariable matcher accepts every
text and whose bracket matcher accepts none. -/
def exLang : LangProfile where
  bracketRegex := fun _ => false
  exactVarRegex := fun _ => true
  splitSnippet := fun _ => []
  parseSnippetContexts := fun _ => []

/-- A fresh compilation context over `exLang`. -/
def exCtx : SnippetCompilationContext := ⟨exLang, [], []⟩

/-- Witness for C6: the wildcard `$_` surrounded by whitespace yields
`Underscore` on the left-hand side. -/
theorem parse_exact_variable_witness :
    exCtx.lang.bracketRegex (toL " $_ ") = false ∧
    exCtx.lang.exactVarRegex (trim (toL " $_ ")) = true ∧
    (trim (toL " $_ ") = toL "$_" ∨ trim (toL " $_ ") = toL "^_") ∧
    parse_snippet_content cnDummy (toL " $_ ") ⟨0, 4⟩ exCtx false =
      (.ok .underscore, exCtx) :=
  ⟨rfl, rfl, Or.inl (by decide),
    (parse_exact_variable cnDummy (toL " $_ ") ⟨0, 4⟩ exCtx rfl rfl).1
      (Or.inl (by decide)) false⟩

/-! ### Claim C7: dynamic fallback when no candidate nodes exist -/

/-- C7: when the text is neither a bracketed template nor an exact single
metavariable and the language's parse yields no candidate AST nodes,
`parse_snippet_content` returns the `Dynamic` pattern built from the
Dynamic Snippet Builder rather than an error. -/
theorem parse_no_nodes_dynamic_fallback (cn : CompileNodeFn)
    (source : List Char) (range : ByteRange)
    (ctx : SnippetCompilationContext) (is_rhs : Bool)
    (hbr : ctx.lang.bracketRegex source = false)
    (hex : ctx.lang.exactVarRegex (trim source) = false)
    (hnodes : ctx.lang.parseSnippetContexts source = [])
    (s : DynamicSnippet) (ctx' : SnippetCompilationContext)
    (hds : dynamic_snippet_from_source source range ctx = (.ok s, ctx')) :
    parse_snippet_content cn source range ctx is_rhs =
      (.ok (.dynamic (.snippet s)), ctx') := by
  simp [parse_snippet_content, hbr, hex, hnodes, hds]

/-- A language profile on which nothing matches and nothing parses. -/
def fbLang : LangProfile where
  bracketRegex := fun _ => false
  exactVarRegex := fun _ => false
  splitSnippet := fun _ => []
  parseSnippetContexts := fun _ => []

/-- A fresh compilation context over `fbLang`. -/
def fbCtx : SnippetCompilationContext := ⟨fbLang, [], []⟩

/-- Witness for C7: the partial fragment `"foo("` parses as no node and
compiles to a `Dynamic` pattern with one literal part. -/
theorem parse_no_nodes_dynamic_fallback_witness :
    fbCtx.lang.parseSnippetContexts (toL "foo(") = [] ∧
    parse_snippet_content cnDummy (toL "foo(") ⟨0, 4⟩ fbCtx false =
      (.ok (.dynamic (.snippet ⟨[.str (toL "foo(")]⟩)), fbCtx) :=
  ⟨rfl,
    parse_no_nodes_dynamic_fallback cnDummy (toL "foo(") ⟨0, 4⟩ fbCtx false
      rfl rfl rfl ⟨[.str (toL "foo(")]⟩ fbCtx rfl⟩

/-! ### Claim C8: a dynamic-build failure is non-fatal when structural
alternatives exist -/

/-- C8: when candidate nodes exist and all compile successfully, an
ordinary (`Result::Err`) failure of the Dynamic Snippet build is
non-fatal: `parse_snippet_content` still returns the `CodeSnippet`
pattern with all structural alternatives and the template omitted. -/
theorem parse_dynamic_failure_nonfatal (cn : CompileNodeFn)
    (source : List Char) (range : ByteRange)
    (ctx : SnippetCompilationContext) (is_rhs : Bool)
    (hbr : ctx.lang.bracketRegex source = false)
    (hex : ctx.lang.exactVarRegex (trim source) = false)
    (hnodes : ctx.lang.parseSnippetContexts source ≠ [])
    (ps : List (Nat × MPattern)) (ctx₁ : SnippetCompilationContext)
    (hcomp : compileAll cn (ctx.lang.parseSnippetContexts source) range ctx is_rhs
      = (.ok ps, ctx₁))
    (err : CompileError) (ctx₂ : SnippetCompilationContext)
    (hds : dynamic_snippet_from_source source range ctx₁ =
      (.error (.err err), ctx₂)) :
    parse_snippet_content cn source range ctx is_rhs =
      (.ok (.codeSnippet ps none source), ctx₂) := by
  simp [parse_snippet_content, hbr, hex, hnodes, hcomp, hds]

/-- A language profile that parses every text as one node of kind 7 and
scans `"$x + 1"` as one occurrence of `$x`. -/
def csLang : LangProfile where
  bracketRegex := fun _ => false
  exactVarRegex := fun _ => false
  splitSnippet := fun s => if s = toL "$x + 1" then [(⟨0, 2⟩, toL "$x")] else []
  parseSnippetContexts := fun _ => [⟨7⟩]

/-- A compilation context over `csLang` whose registry rejects `$x`
(modelling a `VariableBindingError`). -/
def csCtx : SnippetCompilationContext := ⟨csLang, [toL "$x"], []⟩

/-- Witness for C8: the dynamic build of `"$x + 1"` fails with a binding
error, yet the structural alternative of kind 7 is kept and the template
is omitted. -/
theorem parse_dynamic_failure_nonfatal_witness :
    csCtx.lang.parseSnippetContexts (toL "$x + 1") ≠ [] ∧
    (dynamic_snippet_from_source (toL "$x + 1") ⟨0, 6⟩ csCtx).1 =
      .error (.err (.variableBinding (toL "$x"))) ∧
    parse_snippet_content cnDummy (toL "$x + 1") ⟨0, 6⟩ csCtx true =
      (.ok (.codeSnippet [(7, .underscore)] none (toL "$x + 1")), csCtx) :=
  ⟨by decide, rfl,
    parse_dynamic_failure_nonfatal cnDummy (toL "$x + 1") ⟨0, 6⟩ csCtx true
      rfl rfl (by decide) [(7, .underscore)] csCtx rfl
      (.variableBinding (toL "$x")) csCtx rfl⟩

/-! ### Claim C9: the Unwrapper's quote handling -/

theorem stripLastQuote_append (m : List Char) :
    stripLastQuote (m ++ [dqChar]) = some m := by
  induction m with
  | nil => simp [stripLastQuote]
  | cons c t ih =>
    cases t with
    | nil => simp [stripLastQuote]
    | cons d t' =>
      simp only [List.cons_append] at ih ⊢
      simp only [stripLastQuote]
      rw [ih]
      rfl

theorem stripLastQuote_eq_some (l : List Char) :
    ∀ m, stripLastQuote l = some m → l = m ++ [dqChar] := by
  induction l with
  | nil => intro m h; simp [stripLastQuote] at h
  | cons c t ih =>
    intro m h
    cases t with
    | nil =>
      simp only [stripLastQuote] at h
      by_cases hc : c = dqChar
      · rw [if_pos hc] at h
        obtain rfl : ([] : List Char) = m := Option.some.inj h
        rw [hc]; rfl
      · rw [if_neg hc] at h
        exact absurd h (by simp)
    | cons d t' =>
      simp only [stripLastQuote, Option.map_eq_some'] at h
      obtain ⟨m', hm', rfl⟩ := h
      rw [List.cons_append, ih m' hm']

theorem dequote_eq_some_iff (s mid : List Char) :
    dequote s = some mid ↔ s = dqChar :: (mid ++ [dqChar]) := by
  constructor
  · intro h
    cases s with
    | nil => simp [dequote] at h
    | cons c rest =>
      simp only [dequote] at h
      by_cases hc : c = dqChar
      · rw [if_pos hc] at h
        rw [hc, stripLastQuote_eq_some rest mid h]
      · rw [if_neg hc] at h
        exact absurd h (by simp)
  · rintro rfl
    simp [dequote, stripLastQuote_append]

/-- C9: for a language-tagged snippet node with a valid language tag, the
Unwrapper fails with the malformed-literal error whenever the snippet
child's raw text is not wrapped in a matching pair of double quotes, and
otherwise forwards the dequoted content together with the node's own
range shrunk by one column on each side to `parse_snippet_content`. -/
theorem unwrapper_quote_handling (cn : CompileNodeFn)
    (validLang : List Char → Bool) (node : LangSnippetNode)
    (ctx : SnippetCompilationContext) (is_rhs : Bool)
    (langText : List Char) (hl : node.languageChild = some langText)
    (hv : validLang (trim langText) = true)
    (src : List Char) (hs : node.snippetChild = some src) :
    ((¬ ∃ mid, src = dqChar :: (mid ++ [dqChar])) →
      from_node_with_rhs cn validLang node ctx is_rhs =
        (.error (.err .malformedLiteral), ctx))
    ∧ (∀ mid, src = dqChar :: (mid ++ [dqChar]) →
      from_node_with_rhs cn validLang node ctx is_rhs =
        parse_snippet_content cn mid
          ⟨node.range.start + 1, node.range.stop - 1⟩ ctx is_rhs) := by
  constructor
  · intro hno
    have hdq : dequote src = none := by
      rcases ho : dequote src with _ | m
      · rfl
      · exact absurd ⟨m, (dequote_eq_some_iff src m).mp ho⟩ hno
    simp [from_node_with_rhs, hl, hv, hs, hdq]
  · intro mid hmid
    have hdq : dequote src = some mid := (dequote_eq_some_iff src mid).mpr hmid
    simp [from_node_with_rhs, hl, hv, hs, hdq]

/-- A concrete language-tagged snippet node: language child `" js "`,
snippet child `"ok"` in quotes, range `[20, 28)`. -/
def node9 : LangSnippetNode :=
  ⟨some (toL " js "), some (toL "\"ok\""), ⟨20, 28⟩⟩

/-- A target-language registry accepting every language name. -/
def vl9 : List Char → Bool := fun _ => true

/-- Witness for C9: the quoted snippet child is dequoted and forwarded
with the range `[21, 27)` (the node's range shrunk by one on each
side). -/
theorem unwrapper_quote_handling_witness :
    vl9 (trim (toL " js ")) = true ∧
    (toL "\"ok\"" : List Char) = dqChar :: (toL "ok" ++ [dqChar]) ∧
    from_node_with_rhs cnDummy vl9 node9 fbCtx true =
      parse_snippet_content cnDummy (toL "ok") ⟨21, 27⟩ fbCtx true :=
  ⟨rfl, by decide,
    (unwrapper_quote_handling cnDummy vl9 node9 fbCtx true (toL " js ") rfl rfl
      (toL "\"ok\"") rfl).2 (toL "ok") (by decide)⟩

end SnippetComp
